import Mathlib

/-!
Verification development for the `imessage-exporter` typedstream decoder
(`src/imessage-database/src/util/attributed_string.rs`) and the attachment
table helpers (`src/imessage-database/src/tables/attachment.rs`).

The Rust code is shallowly embedded: byte buffers become `List Nat` (each
entry a byte value `< 256`), `Vec` tables become Lean lists, and every
stateful reader method becomes a function from the reader state to a
`Res`-wrapped value-and-state pair.  The Rust source performs unchecked
slice indexing and `unwrap()` calls; a failed index or `unwrap` aborts the
process (a panic), which the embedding models with the distinguished
outcome `Res.crash`.  Recursive methods are given explicit fuel; the
outcome `Res.fuelOut` is a modelling artifact that never occurs when fuel
exceeds the recursion depth, and is kept distinct from `Res.crash` so that
no theorem can confuse the two.
-/

namespace IME

/-- Outcome of running an embedded Rust computation: a normal value, a
process-aborting panic (`crash`, from unchecked indexing or `unwrap`), or
fuel exhaustion of the model (`fuelOut`, never a behavior of the source). -/
inductive Res (α : Type) where
  | ok : α → Res α
  | crash : Res α
  | fuelOut : Res α
deriving DecidableEq

/-- Sequencing of embedded computations: panics and fuel exhaustion
propagate, values flow to the continuation. -/
def Res.bind {α β : Type} : Res α → (α → Res β) → Res β
  | .ok a, f => f a
  | .crash, _ => .crash
  | .fuelOut, _ => .fuelOut

/-- Byte marking the start of a new object (`START` in the source). -/
def START : Nat := 0x84

/-- Byte marking no data / end of an inheritance chain (`EMPTY`). -/
def EMPTY : Nat := 0x85

/-- Byte marking the last byte of an object (`END`). -/
def END : Nat := 0x86

/-- Byte marking embedded type encoding data (`ENCODING_DETECTED`). -/
def ENCODING_DETECTED : Nat := 0x95

/-- Bytes at or above this value are back-references into a table of
already-seen entries (`REFERENCE_TAG`). -/
def REFERENCE_TAG : Nat := 0x92

/-- Embeds the Rust struct `Class { name: String, version: u8 }`; the
name is kept as its UTF-8 byte sequence. -/
structure Class where
  name : List Nat
  version : Nat
deriving DecidableEq

/-- Embeds the Rust enum `OutputData`. -/
inductive OutputData where
  | String : List Nat → OutputData
  | Number : Int → OutputData
  | Byte : Nat → OutputData
  | Class : Class → OutputData
  | NewObject : OutputData
  | Reference : Nat → OutputData
  | Placeholder : OutputData
  | None : OutputData
deriving DecidableEq

/-- Embeds the Rust enum `Archivable`. -/
inductive Archivable where
  | Object : List OutputData → Archivable
  | Class : Class → Archivable
deriving DecidableEq

/-- Embeds the Rust enum `Type` (named `Ty` here because `Type` is
reserved in Lean). -/
inductive Ty where
  | Utf8String : Ty
  | EmbeddedData : Ty
  | Object : Ty
  | SignedInt : Ty
  | UnsignedInt : Ty
  | String : List Nat → Ty
  | Unknown : Nat → Ty
deriving DecidableEq

/-- Embeds `Type::from_byte`: classify a single byte as a type code. -/
def Ty.from_byte (b : Nat) : Ty :=
  if b = 0x40 then .Object
  else if b = 0x2B then .Utf8String
  else if b = 0x2A then .EmbeddedData
  else if b = 0x69 then .UnsignedInt
  else if b = 0x49 then .SignedInt
  else .Unknown b

/-- Embeds `Type::new_string`. -/
def Ty.new_string (s : List Nat) : Ty := .String s

/-- Embeds the Rust struct `TypedStreamReader`: the borrowed byte stream,
the cursor index, and the two append-only tables. -/
structure TypedStreamReader where
  stream : List Nat
  idx : Nat
  types_table : List (List Ty)
  object_table : List Archivable
deriving DecidableEq

/-- Embeds `TypedStreamReader::new`. -/
def TypedStreamReader.new (stream : List Nat) : TypedStreamReader :=
  { stream := stream, idx := 0, types_table := [], object_table := [] }

/-- Embeds `read_int` (`get_current_byte` then advance): unchecked
indexing panics when the cursor is at or past the end of the buffer. -/
def read_int (s : TypedStreamReader) : Res (Nat × TypedStreamReader) :=
  match s.stream[s.idx]? with
  | some value => .ok (value, { s with idx := s.idx + 1 })
  | none => .crash

/-- Embeds `read_exact_bytes`: the slice `stream[idx..idx+n]` panics when
`idx + n` exceeds the buffer length. -/
def read_exact_bytes (n : Nat) (s : TypedStreamReader) :
    Res (List Nat × TypedStreamReader) :=
  if s.idx + n ≤ s.stream.length then
    .ok ((s.stream.drop s.idx).take n, { s with idx := s.idx + n })
  else .crash

/-- Decides whether a byte sequence is valid UTF-8, following the
standard table (no overlong forms, no surrogates, max U+10FFFF); this is
the validation performed by Rust's `std::str::from_utf8`. -/
def utf8Valid : List Nat → Bool
  | [] => true
  | b :: rest =>
    if b < 0x80 then utf8Valid rest
    else if 0xC2 ≤ b ∧ b ≤ 0xDF then
      match rest with
      | c :: r2 => if 0x80 ≤ c ∧ c ≤ 0xBF then utf8Valid r2 else false
      | [] => false
    else if b = 0xE0 then
      match rest with
      | c :: d :: r2 =>
        if (0xA0 ≤ c ∧ c ≤ 0xBF) ∧ (0x80 ≤ d ∧ d ≤ 0xBF) then utf8Valid r2
        else false
      | _ => false
    else if (0xE1 ≤ b ∧ b ≤ 0xEC) ∨ b = 0xEE ∨ b = 0xEF then
      match rest with
      | c :: d :: r2 =>
        if (0x80 ≤ c ∧ c ≤ 0xBF) ∧ (0x80 ≤ d ∧ d ≤ 0xBF) then utf8Valid r2
        else false
      | _ => false
    else if b = 0xED then
      match rest with
      | c :: d :: r2 =>
        if (0x80 ≤ c ∧ c ≤ 0x9F) ∧ (0x80 ≤ d ∧ d ≤ 0xBF) then utf8Valid r2
        else false
      | _ => false
    else if b = 0xF0 then
      match rest with
      | c :: d :: e :: r2 =>
        if (0x90 ≤ c ∧ c ≤ 0xBF) ∧ (0x80 ≤ d ∧ d ≤ 0xBF) ∧
            (0x80 ≤ e ∧ e ≤ 0xBF) then utf8Valid r2
        else false
      | _ => false
    else if 0xF1 ≤ b ∧ b ≤ 0xF3 then
      match rest with
      | c :: d :: e :: r2 =>
        if (0x80 ≤ c ∧ c ≤ 0xBF) ∧ (0x80 ≤ d ∧ d ≤ 0xBF) ∧
            (0x80 ≤ e ∧ e ≤ 0xBF) then utf8Valid r2
        else false
      | _ => false
    else if b = 0xF4 then
      match rest with
      | c :: d :: e :: r2 =>
        if (0x80 ≤ c ∧ c ≤ 0x8F) ∧ (0x80 ≤ d ∧ d ≤ 0xBF) ∧
            (0x80 ≤ e ∧ e ≤ 0xBF) then utf8Valid r2
        else false
      | _ => false
    else false

/-- Embeds `read_exact_as_string`: read `n` bytes and require them to be
valid UTF-8 (`std::str::from_utf8(...).unwrap()` panics otherwise); the
decoded text is kept as its byte sequence. -/
def read_exact_as_string (n : Nat) (s : TypedStreamReader) :
    Res (List Nat × TypedStreamReader) :=
  (read_exact_bytes n s).bind fun p =>
    if utf8Valid p.1 then .ok (p.1, p.2) else .crash

/-- Embeds `read_string`: a length byte followed by that many text bytes. -/
def read_string (s : TypedStreamReader) : Res (List Nat × TypedStreamReader) :=
  (read_int s).bind fun p => read_exact_as_string p.1 p.2

/-- Embeds `read_type`: a length byte followed by that many bytes, each
classified by `Ty.from_byte`. -/
def read_type (s : TypedStreamReader) : Res (List Ty × TypedStreamReader) :=
  (read_int s).bind fun p =>
    (read_exact_bytes p.1 p.2).bind fun q =>
      .ok (q.1.map Ty.from_byte, q.2)

/-- Fueled embedding of the loop `while get_current_byte() == START { idx += 1 }`
in `read_class`: each iteration re-reads the current byte (panicking past
the end of the buffer) and advances while it equals `START`. -/
def skipStartsF : Nat → TypedStreamReader → Res TypedStreamReader
  | 0, _ => .fuelOut
  | fuel + 1, s =>
    match s.stream[s.idx]? with
    | none => .crash
    | some b =>
      if b = START then skipStartsF fuel { s with idx := s.idx + 1 }
      else .ok s

/-- The `START`-skipping loop with its exact iteration bound: the loop
advances the cursor each round, so `length - idx + 1` rounds always end in
a read failure or a non-`START` byte, never in fuel exhaustion. -/
def skipStarts (s : TypedStreamReader) : Res TypedStreamReader :=
  skipStartsF (s.stream.length - s.idx + 1) s

/-- Fueled embedding of the loop
`while get_current_byte() == get_next_byte() { idx += 1 }` in `get_type`:
both reads are unchecked, so a missing current or next byte panics. -/
def skipRepeatsF : Nat → TypedStreamReader → Res TypedStreamReader
  | 0, _ => .fuelOut
  | fuel + 1, s =>
    match s.stream[s.idx]?, s.stream[s.idx + 1]? with
    | some c, some n =>
      if c = n then skipRepeatsF fuel { s with idx := s.idx + 1 }
      else .ok s
    | _, _ => .crash

/-- The repeated-byte-skipping loop with its exact iteration bound. -/
def skipRepeats (s : TypedStreamReader) : Res TypedStreamReader :=
  skipRepeatsF (s.stream.length - s.idx + 1) s

/-- Embeds `get_type`: at a `START` byte read and register a fresh type
list (returning it via `types_table.last().unwrap()`); at an `END` byte
return the empty list; otherwise collapse runs of repeated bytes, read a
back-reference pointer (wrapping `u8` subtraction of `REFERENCE_TAG`, the
release-mode semantics of `-`), and look it up with
`types_table.get(tag).unwrap()`, which panics when the index is out of
bounds. -/
def get_type (s : TypedStreamReader) : Res (List Ty × TypedStreamReader) :=
  match s.stream[s.idx]? with
  | none => .crash
  | some b =>
    if b = START then
      (read_type { s with idx := s.idx + 1 }).bind fun p =>
        let s2 : TypedStreamReader :=
          { p.2 with types_table := p.2.types_table ++ [p.1] }
        match s2.types_table.getLast? with
        | some ts => .ok (ts, s2)
        | none => .crash
    else if b = END then .ok ([], s)
    else
      (skipRepeats s).bind fun s1 =>
        match s1.stream[s1.idx]? with
        | none => .crash
        | some c =>
          let ref_tag := (c + 256 - REFERENCE_TAG) % 256
          let s2 : TypedStreamReader := { s1 with idx := s1.idx + 1 }
          match s2.types_table[ref_tag]? with
          | some possible_types => .ok (possible_types, s2)
          | none => .crash

mutual

/-- Embeds `read_class`.  At a `START` byte: skip the run of `START`
bytes, read a length byte; a length at or above `REFERENCE_TAG` is a
back-reference resolved directly from the Object Table; otherwise read
that many name bytes and a version byte, register the class in both
tables (a singleton type entry and a class entry), and recurse for the
rest of the inheritance chain (the `?` operator propagates a `None`
result).  At `EMPTY`: consume it and return the last table entry.  At
`ENCODING_DETECTED`: decode embedded data and register it as an object.
Otherwise: read a back-reference pointer into the Object Table.  The
peek after the version byte embeds the `println!` that calls
`get_current_byte` at line 196 of the source. -/
def read_class : Nat → TypedStreamReader → Res (Option Archivable × TypedStreamReader)
  | 0, _ => .fuelOut
  | fuel + 1, s =>
    match s.stream[s.idx]? with
    | none => .crash
    | some b =>
      if b = START then
        (skipStarts s).bind fun s1 =>
          (read_int s1).bind fun lp =>
            if REFERENCE_TAG ≤ lp.1 then
              .ok (lp.2.object_table[lp.1 - REFERENCE_TAG]?, lp.2)
            else
              (read_exact_as_string lp.1 lp.2).bind fun np =>
                (read_int np.2).bind fun vp =>
                  match vp.2.stream[vp.2.idx]? with
                  | none => .crash
                  | some _ =>
                    let s5 : TypedStreamReader :=
                      { vp.2 with
                        types_table :=
                          vp.2.types_table ++ [[Ty.new_string np.1]],
                        object_table :=
                          vp.2.object_table ++
                            [Archivable.Class ⟨np.1, vp.1⟩] }
                    match read_class fuel s5 with
                    | .ok (none, s6) => .ok (none, s6)
                    | .ok (some _, s6) => .ok (s6.object_table.getLast?, s6)
                    | .crash => .crash
                    | .fuelOut => .fuelOut
      else if b = EMPTY then
        let s1 : TypedStreamReader := { s with idx := s.idx + 1 }
        .ok (s1.object_table.getLast?, s1)
      else if b = ENCODING_DETECTED then
        match read_embedded_data fuel s with
        | .ok (embedded, s1) =>
          let s2 : TypedStreamReader :=
            { s1 with object_table := s1.object_table ++ [Archivable.Object embedded] }
          .ok (s2.object_table.getLast?, s2)
        | .crash => .crash
        | .fuelOut => .fuelOut
      else
        let index := (b + 256 - REFERENCE_TAG) % 256
        let s1 : TypedStreamReader := { s with idx := s.idx + 1 }
        .ok (s1.object_table[index]?, s1)

/-- Embeds `read_object`: dispatch on the current byte to a class chain,
an empty marker, or a back-reference pointer into the Object Table. -/
def read_object : Nat → TypedStreamReader → Res (Option Archivable × TypedStreamReader)
  | 0, _ => .fuelOut
  | fuel + 1, s =>
    match s.stream[s.idx]? with
    | none => .crash
    | some b =>
      if b = START then read_class fuel s
      else if b = EMPTY then .ok (none, { s with idx := s.idx + 1 })
      else
        let index := (b + 256 - REFERENCE_TAG) % 256
        let s1 : TypedStreamReader := { s with idx := s.idx + 1 }
        .ok (s1.object_table[index]?, s1)

/-- Embeds `read_embedded_data`: skip one byte, resolve the nested type
list, and decode it. -/
def read_embedded_data : Nat → TypedStreamReader → Res (List OutputData × TypedStreamReader)
  | 0, _ => .fuelOut
  | fuel + 1, s =>
    (get_type { s with idx := s.idx + 1 }).bind fun p =>
      read_types fuel p.1 p.2

/-- Embeds `read_types`: produce one output per type code, in order,
splicing embedded and object results inline.  The peek before
`read_object` embeds the `print_loc` call in the `Object` arm. -/
def read_types : Nat → List Ty → TypedStreamReader → Res (List OutputData × TypedStreamReader)
  | 0, _, _ => .fuelOut
  | _ + 1, [], s => .ok ([], s)
  | fuel + 1, object_type :: rest, s =>
    (match object_type with
      | Ty.Utf8String =>
        (read_string s).bind fun p => .ok ([OutputData.String p.1], p.2)
      | Ty.EmbeddedData => read_embedded_data fuel s
      | Ty.Object =>
        match s.stream[s.idx]? with
        | none => .crash
        | some _ =>
          (read_object fuel s).bind fun p =>
            match p.1 with
            | some (Archivable.Object data) => .ok (data, p.2)
            | some (Archivable.Class cls) => .ok ([OutputData.Class cls], p.2)
            | none => .ok ([OutputData.None], p.2)
      | Ty.SignedInt =>
        (read_int s).bind fun p => .ok ([OutputData.Number (Int.ofNat p.1)], p.2)
      | Ty.UnsignedInt =>
        (read_int s).bind fun p => .ok ([OutputData.Number (Int.ofNat p.1)], p.2)
      | Ty.Unknown byte => .ok ([OutputData.Byte byte], s)
      | Ty.String str => .ok ([OutputData.String str], s)).bind fun vp =>
      (read_types fuel rest vp.2).bind fun rp =>
        .ok (vp.1 ++ rp.1, rp.2)

end

/-- Embeds the `while self.idx < self.stream.len()` loop of `parse`:
consume `END` bytes, otherwise resolve the current type list and decode
one top-level entry. -/
def parseLoop : Nat → TypedStreamReader → List (List OutputData) →
    Res (List (List OutputData) × TypedStreamReader)
  | 0, _, _ => .fuelOut
  | fuel + 1, s, out_v =>
    if s.idx < s.stream.length then
      match s.stream[s.idx]? with
      | none => .crash
      | some b =>
        if b = END then parseLoop fuel { s with idx := s.idx + 1 } out_v
        else
          (get_type s).bind fun tp =>
            (read_types fuel tp.1 tp.2).bind fun rp =>
              parseLoop fuel rp.2 (out_v ++ [rp.1])
    else .ok (out_v, s)

/-- Embeds `parse`: skip the 16 header bytes unconditionally, then run
the top-level loop. -/
def parse (fuel : Nat) (s : TypedStreamReader) :
    Res (List (List OutputData) × TypedStreamReader) :=
  parseLoop fuel { s with idx := s.idx + 16 } []

/-- Run one full parse invocation on a buffer with a fresh reader (fresh
cursor and fresh, empty tables), keeping only the decoded output. -/
def parseStream (fuel : Nat) (buf : List Nat) : Res (List (List OutputData)) :=
  (parse fuel (TypedStreamReader.new buf)).bind fun p => .ok p.1

/-- Embeds Rust `str::split(sep)` on a character list: splitting on a
separator yields the (possibly empty) segments between separator
occurrences, always at least one segment. -/
def splitChar (sep : Char) : List Char → List (List Char)
  | [] => [[]]
  | c :: rest =>
    if c = sep then [] :: splitChar sep rest
    else
      match splitChar sep rest with
      | [] => [[c]]
      | r :: rs => (c :: r) :: rs

/-- Embeds the Rust enum `MediaType`; the payload is the full mime-type
string (as a character list) the variant was classified from. -/
inductive MediaType where
  | Image : List Char → MediaType
  | Video : List Char → MediaType
  | Audio : List Char → MediaType
  | Text : List Char → MediaType
  | Application : List Char → MediaType
  | Other : List Char → MediaType
  | Unknown : MediaType
deriving DecidableEq

/-- Embeds the Rust struct `Attachment` (one row of the `attachment`
table); strings are kept as character lists and the path as a string. -/
structure Attachment where
  rowid : Int
  filename : Option (List Char)
  mime_type : Option (List Char)
  transfer_name : Option (List Char)
  total_bytes : Int
  hide_attachment : Int
  copied_path : Option (List Char)

/-- Embeds `Attachment::mime_type` (named `mimeType` because the Lean
field `mime_type` occupies the method name): classify the stored
mime-type string by its first `split('/')` segment; an absent string is
`Unknown`.  The `Other` fallback for a missing first segment is kept
from the source even though `split` always yields a first segment. -/
def Attachment.mimeType (a : Attachment) : MediaType :=
  match a.mime_type with
  | some mime =>
    match (splitChar '/' mime).head? with
    | some mime_str =>
      if mime_str = "image".toList then MediaType.Image mime
      else if mime_str = "video".toList then MediaType.Video mime
      else if mime_str = "audio".toList then MediaType.Audio mime
      else if mime_str = "text".toList then MediaType.Text mime
      else if mime_str = "application".toList then MediaType.Application mime
      else MediaType.Other mime
    | none => MediaType.Other mime
  | none => MediaType.Unknown

/-- Embeds `Attachment::filename` the method (named `reasonableFilename`
because the Lean field `filename` occupies the method name): prefer the
transfer name, fall back to the stored filename, and finally to a fixed
placeholder. -/
def Attachment.reasonableFilename (a : Attachment) : List Char :=
  match a.transfer_name with
  | some transfer_name => transfer_name
  | none =>
    match a.filename with
    | some filename => filename
    | none => "Attachment missing name metadata!".toList

/-- A 16-byte header block; `parse` skips it without reading it. -/
def hdr : List Nat := List.replicate 16 0

/-- A well-formed typedstream body: one top-level type list `[Utf8String]`
followed by a length-5 string with bytes `Hello`; the full parse of this
buffer succeeds and yields one entry. -/
def validBuf : List Nat :=
  hdr ++ [0x84, 0x01, 0x2B, 0x05, 0x48, 0x65, 0x6C, 0x6C, 0x6F]

/-- A buffer whose single body byte is a type back-reference pointer with
decoded index 0 while the Type Table is still empty. -/
def refBuf : List Nat := hdr ++ [0x92, 0x00]

/-- A one-byte reader state used to instantiate hypotheses of the
universally quantified theorems at a concrete input. -/
def oneByteState : TypedStreamReader :=
  { stream := [0x2A], idx := 0, types_table := [], object_table := [] }

/-- An attachment record with all metadata present, for instantiating
the attachment theorems. -/
def sampleAttachment : Attachment :=
  { rowid := 1, filename := some "a/b/c.png".toList,
    mime_type := some "image/png".toList,
    transfer_name := some "c.png".toList, total_bytes := 100,
    hide_attachment := 0, copied_path := none }

/-- An attachment record with both name fields absent. -/
def namelessAttachment : Attachment :=
  { sampleAttachment with transfer_name := none, filename := none }

/-- A reader state whose class-chain opens with a back-reference length
byte `0x93` and whose Object Table already has two entries. -/
def refState : TypedStreamReader :=
  { stream := [0x84, 0x93], idx := 0, types_table := [],
    object_table := [Archivable.Class ⟨[65], 1⟩, Archivable.Class ⟨[66], 2⟩] }

/-- A reader state whose class-chain opens with a literal class `A`
(length 1, version 7) followed by the empty-chain marker. -/
def litState : TypedStreamReader :=
  { stream := [0x84, 0x01, 65, 7, 0x85], idx := 0, types_table := [],
    object_table := [] }

/-- One reader state extends another when the stream is unchanged and
each table of the first is a prefix of the corresponding table of the
second: nothing already registered is mutated, moved, or removed. -/
def tablesExtend (s s2 : TypedStreamReader) : Prop :=
  s2.stream = s.stream ∧
  (∃ t, s2.types_table = s.types_table ++ t) ∧
  (∃ o, s2.object_table = s.object_table ++ o)

/-- A reader over `validBuf` with one pre-registered entry in each
table, so that index stability is non-vacuous. -/
def c4Start : TypedStreamReader :=
  { stream := validBuf, idx := 0, types_table := [[Ty.Object]],
    object_table := [Archivable.Class ⟨[65], 1⟩] }

/-- State after `read_class` resolves the pointer at offset 0 of
`c4Start`. -/
def c4ReadEnd : TypedStreamReader := { c4Start with idx := 1 }

/-- State after a full `parse` of `c4Start`. -/
def c4ParseEnd : TypedStreamReader :=
  { stream := validBuf, idx := 25,
    types_table := [[Ty.Object], [Ty.Utf8String]],
    object_table := [Archivable.Class ⟨[65], 1⟩] }

/-- Characterization of a successful `Res.bind`. -/
theorem Res.bind_eq_ok {α β : Type} {x : Res α} {f : α → Res β} {r : β} :
    x.bind f = .ok r ↔ ∃ a, x = .ok a ∧ f a = .ok r := by
  cases x <;> simp [Res.bind]

/-- The first segment produced by `splitChar` is exactly the prefix of
the input strictly before the first separator occurrence; in particular
`split(sep).next()` always yields a value. -/
theorem splitChar_head (sep : Char) (m : List Char) :
    (splitChar sep m).head? = some (m.takeWhile (fun c => c ≠ sep)) := by
  induction m with
  | nil => simp [splitChar]
  | cons c rest ih =>
    by_cases hc : c = sep
    · simp [splitChar, hc, List.takeWhile]
    · simp only [splitChar, if_neg hc]
      cases hr : splitChar sep rest with
      | nil => rw [hr] at ih; simp at ih
      | cons r rs =>
        rw [hr] at ih
        simp only [List.head?, Option.some.injEq] at ih
        simp only [List.head?, List.takeWhile, Option.some.injEq]
        simp [hc, ih]

/-- Claim C1: truncating a valid buffer at any byte boundary must yield a
well-defined error of one of the four declared kinds and never crash, and
no cursor read may touch an offset at or past the buffer length.  The
code violates this: `validBuf` parses successfully, but its truncation to
17 bytes drives `read_int` into the unchecked index `stream[idx]` at
offset 17 of a 17-byte buffer, and the process panics (`Res.crash`)
instead of returning an error value. -/
theorem c1_truncation_panics :
    parseStream 32 validBuf =
      .ok [[OutputData.String [0x48, 0x65, 0x6C, 0x6C, 0x6F]]] ∧
    parseStream 32 (validBuf.take 17) = .crash := by
  constructor
  · decide
  · decide

/-- Claim C2: a back-reference whose decoded index is not strictly below
the referenced table's length should surface `UnresolvedReference` (or
`MalformedClassChain`) to the caller.  The code violates this: on
`refBuf` the type back-reference decodes to index 0 against an empty
Type Table and `get_type` runs `types_table.get(0).unwrap()`, which
panics (`Res.crash`) instead of surfacing an error value. -/
theorem c2_unresolved_reference_panics :
    get_type { stream := refBuf, idx := 16, types_table := [],
               object_table := [] } = .crash ∧
    parseStream 32 refBuf = .crash := by
  constructor
  · decide
  · decide

/-- Claim C5: decoding a value against an unrecognized type code
`Unknown b` emits exactly the raw byte `b`, consumes no stream bytes,
and never errors: the reader state is returned unchanged. -/
theorem c5_unknown_code_passthrough (fuel : Nat) (b : Nat)
    (s : TypedStreamReader) :
    read_types (fuel + 2) [Ty.Unknown b] s = .ok ([OutputData.Byte b], s) := by
  simp [read_types, Res.bind]

/-- Claim C8: decoding against `SignedInt` and against `UnsignedInt`
each consume exactly one byte and emit that byte as a `Number`, with
identical results for the two codes and the emitted value equal to the
byte itself (no sign extension). -/
theorem c8_int_codes_read_one_byte (fuel : Nat) (b : Nat)
    (s : TypedStreamReader) (h : s.stream[s.idx]? = some b) :
    read_types (fuel + 2) [Ty.SignedInt] s =
      .ok ([OutputData.Number (Int.ofNat b)], { s with idx := s.idx + 1 }) ∧
    read_types (fuel + 2) [Ty.UnsignedInt] s =
      read_types (fuel + 2) [Ty.SignedInt] s := by
  constructor
  · simp [read_types, read_int, h, Res.bind]
  · simp [read_types, read_int, h, Res.bind]

/-- A closed instance of C8 at a concrete reader state, obtained from
the theorem itself. -/
theorem c8_int_codes_read_one_byte_witness :
    read_types 7 [Ty.SignedInt] oneByteState =
      .ok ([OutputData.Number (Int.ofNat 0x2A)],
        { oneByteState with idx := oneByteState.idx + 1 }) ∧
    read_types 7 [Ty.UnsignedInt] oneByteState =
      read_types 7 [Ty.SignedInt] oneByteState :=
  c8_int_codes_read_one_byte 5 0x2A oneByteState (by decide)

/-- Claim C9: the type-code classifier is total and maps `0x40` to
`Object`, `0x2B` to `Utf8String`, `0x2A` to `EmbeddedData`, `0x69` to
`UnsignedInt`, `0x49` to `SignedInt`, and every other byte `b` to
`Unknown b`, so distinct unrecognized bytes classify distinctly. -/
theorem c9_from_byte_classifier :
    Ty.from_byte 0x40 = Ty.Object ∧
    Ty.from_byte 0x2B = Ty.Utf8String ∧
    Ty.from_byte 0x2A = Ty.EmbeddedData ∧
    Ty.from_byte 0x69 = Ty.UnsignedInt ∧
    Ty.from_byte 0x49 = Ty.SignedInt ∧
    (∀ b : Nat, b ≠ 0x40 → b ≠ 0x2B → b ≠ 0x2A → b ≠ 0x69 → b ≠ 0x49 →
      Ty.from_byte b = Ty.Unknown b) ∧
    (∀ b c : Nat, b ≠ 0x40 → b ≠ 0x2B → b ≠ 0x2A → b ≠ 0x69 → b ≠ 0x49 →
      Ty.from_byte b = Ty.from_byte c → Ty.from_byte c = Ty.Unknown c →
      b = c) := by
  refine ⟨by decide, by decide, by decide, by decide, by decide, ?_, ?_⟩
  · intro b h1 h2 h3 h4 h5
    simp [Ty.from_byte, h1, h2, h3, h4, h5]
  · intro b c h1 h2 h3 h4 h5 heq hc
    have hb : Ty.from_byte b = Ty.Unknown b := by
      simp [Ty.from_byte, h1, h2, h3, h4, h5]
    rw [hb, hc] at heq
    exact Ty.Unknown.inj heq

/-- A closed instance of C9 at concrete bytes, obtained from the theorem
itself. -/
theorem c9_from_byte_classifier_witness :
    Ty.from_byte 0x41 = Ty.Unknown 0x41 :=
  c9_from_byte_classifier.2.2.2.2.2.1 0x41
    (by decide) (by decide) (by decide) (by decide) (by decide)

/-- Claim C6: two independent parse invocations over the same buffer,
each with its own fresh cursor, Type Table, and Object Table, produce
identical results: the parse is a deterministic function of the input
bytes alone, with no state shared between invocations. -/
theorem c6_parse_deterministic (buf : List Nat) (fuel : Nat)
    (s1 s2 : TypedStreamReader)
    (h1 : s1 = TypedStreamReader.new buf)
    (h2 : s2 = TypedStreamReader.new buf) :
    parse fuel s1 = parse fuel s2 := by
  rw [h1, h2]

/-- A closed instance of C6 on a concrete buffer, obtained from the
theorem itself. -/
theorem c6_parse_deterministic_witness :
    parse 32 (TypedStreamReader.new validBuf) =
      parse 32 (TypedStreamReader.new validBuf) :=
  c6_parse_deterministic validBuf 32
    (TypedStreamReader.new validBuf) (TypedStreamReader.new validBuf) rfl rfl

/-- Claim C7: MIME classification maps an absent mime-type string to
`Unknown`; a present string is classified by its major type token (the
characters strictly before the first `/`, or the whole string when no
`/` occurs): the five recognized tokens select their variants, any other
token yields `Other`, and a present string is never `Unknown`. -/
theorem c7_mime_type_classification (a : Attachment) :
    (a.mime_type = none → a.mimeType = MediaType.Unknown) ∧
    (∀ m, a.mime_type = some m →
      a.mimeType =
        (if m.takeWhile (fun c => c ≠ '/') = "image".toList then
          MediaType.Image m
        else if m.takeWhile (fun c => c ≠ '/') = "video".toList then
          MediaType.Video m
        else if m.takeWhile (fun c => c ≠ '/') = "audio".toList then
          MediaType.Audio m
        else if m.takeWhile (fun c => c ≠ '/') = "text".toList then
          MediaType.Text m
        else if m.takeWhile (fun c => c ≠ '/') = "application".toList then
          MediaType.Application m
        else MediaType.Other m)) ∧
    (∀ m, a.mime_type = some m → a.mimeType ≠ MediaType.Unknown) := by
  refine ⟨?_, ?_, ?_⟩
  · intro h
    simp [Attachment.mimeType, h]
  · intro m hm
    simp only [Attachment.mimeType, hm, splitChar_head]
  · intro m hm
    simp only [Attachment.mimeType, hm, splitChar_head]
    split_ifs <;> simp

/-- A closed instance of C7 at a concrete attachment, obtained from the
theorem itself. -/
theorem c7_mime_type_classification_witness :
    sampleAttachment.mimeType =
      (if ("image/png".toList).takeWhile (fun c => c ≠ '/') = "image".toList
        then MediaType.Image "image/png".toList
      else if ("image/png".toList).takeWhile (fun c => c ≠ '/') = "video".toList
        then MediaType.Video "image/png".toList
      else if ("image/png".toList).takeWhile (fun c => c ≠ '/') = "audio".toList
        then MediaType.Audio "image/png".toList
      else if ("image/png".toList).takeWhile (fun c => c ≠ '/') = "text".toList
        then MediaType.Text "image/png".toList
      else if ("image/png".toList).takeWhile (fun c => c ≠ '/') =
          "application".toList
        then MediaType.Application "image/png".toList
      else MediaType.Other "image/png".toList) :=
  (c7_mime_type_classification sampleAttachment).2.1 "image/png".toList rfl

/-- Claim C10: the display-name operation is total: it returns the
transfer name when present, otherwise the stored filename when present,
otherwise the fixed placeholder, and in the both-absent case the result
is the placeholder and in particular non-empty. -/
theorem c10_filename_fallback (a : Attachment) :
    (∀ t, a.transfer_name = some t → a.reasonableFilename = t) ∧
    (a.transfer_name = none → ∀ f, a.filename = some f →
      a.reasonableFilename = f) ∧
    (a.transfer_name = none → a.filename = none →
      a.reasonableFilename = "Attachment missing name metadata!".toList ∧
        a.reasonableFilename ≠ []) := by
  refine ⟨?_, ?_, ?_⟩
  · intro t ht
    simp [Attachment.reasonableFilename, ht]
  · intro ht f hf
    simp [Attachment.reasonableFilename, ht, hf]
  · intro ht hf
    simp [Attachment.reasonableFilename, ht, hf]

/-- A closed instance of C10 at a concrete attachment with neither name
field, obtained from the theorem itself. -/
theorem c10_filename_fallback_witness :
    namelessAttachment.reasonableFilename =
      "Attachment missing name metadata!".toList ∧
    namelessAttachment.reasonableFilename ≠ [] :=
  (c10_filename_fallback namelessAttachment).2.2 rfl rfl

/-- When the current byte is `START` and the following byte is not, the
`START`-skipping loop of `read_class` advances the cursor exactly once. -/
theorem skipStarts_two (s : TypedStreamReader) (v : Nat)
    (h0 : s.stream[s.idx]? = some START)
    (h1 : s.stream[s.idx + 1]? = some v) (hv : v ≠ START) :
    skipStarts s = .ok { s with idx := s.idx + 1 } := by
  have hlt : s.idx < s.stream.length := (List.getElem?_eq_some.mp h0).1
  obtain ⟨k, hk⟩ : ∃ k, s.stream.length - s.idx = k + 1 :=
    ⟨s.stream.length - s.idx - 1, by omega⟩
  have e1 : skipStartsF (k + 1 + 1) s =
      skipStartsF (k + 1) { s with idx := s.idx + 1 } := by
    simp [skipStartsF, h0]
  have e2 : skipStartsF (k + 1) { s with idx := s.idx + 1 } =
      .ok { s with idx := s.idx + 1 } := by
    simp [skipStartsF, h1, hv]
  unfold skipStarts
  rw [hk, e1, e2]

/-- Claim C3: in class-chain decoding, after the start-of-object marker
the next byte is read as a length value `v`.  If `v ≥ 0x92`
(`REFERENCE_TAG`) it is treated as a back-reference: the decoder resolves
index `v - 0x92` in the Object Table and consumes nothing further.  If
`v < 0x92` it reads exactly `v` following bytes as a literal class name
and then one version byte, registers the class, and recurses into the
rest of the chain. -/
theorem c3_class_length_or_reference (fuel : Nat) (s : TypedStreamReader)
    (v : Nat)
    (h0 : s.stream[s.idx]? = some START)
    (h1 : s.stream[s.idx + 1]? = some v)
    (hvS : v ≠ START) :
    (REFERENCE_TAG ≤ v →
      read_class (fuel + 1) s =
        .ok (s.object_table[v - REFERENCE_TAG]?,
          { s with idx := s.idx + 2 })) ∧
    (v < REFERENCE_TAG →
      utf8Valid ((s.stream.drop (s.idx + 2)).take v) = true →
      ∀ version u, s.stream[s.idx + 2 + v]? = some version →
        s.stream[s.idx + 3 + v]? = some u →
        read_class (fuel + 1) s =
          (match read_class fuel
              { s with
                idx := s.idx + 3 + v,
                types_table := s.types_table ++
                  [[Ty.new_string ((s.stream.drop (s.idx + 2)).take v)]],
                object_table := s.object_table ++
                  [Archivable.Class
                    ⟨(s.stream.drop (s.idx + 2)).take v, version⟩] } with
            | .ok (none, s6) => .ok (none, s6)
            | .ok (some _, s6) => .ok (s6.object_table.getLast?, s6)
            | .crash => .crash
            | .fuelOut => .fuelOut)) := by
  have hskip : skipStarts s = .ok { s with idx := s.idx + 1 } :=
    skipStarts_two s v h0 h1 hvS
  have e12 : s.idx + 1 + 1 = s.idx + 2 := by omega
  constructor
  · intro href
    simp only [read_class, h0, hskip, Res.bind, read_int, e12, h1]
    simp [href]
  · intro hlen hval version u hver hpeek
    have hnotref : ¬ (REFERENCE_TAG ≤ v) := Nat.not_le.mpr hlen
    have hle : s.idx + 2 + v ≤ s.stream.length := by
      have := (List.getElem?_eq_some.mp hver).1
      omega
    have e3 : s.idx + 2 + v + 1 = s.idx + 3 + v := by omega
    simp only [read_class, h0, hskip, Res.bind, read_int, e12, h1]
    rw [if_neg hnotref]
    simp only [read_exact_as_string, read_exact_bytes, Res.bind, hle,
      if_true, hval, read_int, e3, hver, hpeek]

/-- A closed instance of C3: both the back-reference branch and the
literal branch of the theorem, applied at concrete reader states. -/
theorem c3_class_length_or_reference_witness :
    read_class 6 refState =
      .ok (refState.object_table[0x93 - REFERENCE_TAG]?,
        { refState with idx := refState.idx + 2 }) ∧
    read_class 6 litState =
      (match read_class 5
          { litState with
            idx := litState.idx + 3 + 1,
            types_table := litState.types_table ++
              [[Ty.new_string ((litState.stream.drop (litState.idx + 2)).take 1)]],
            object_table := litState.object_table ++
              [Archivable.Class
                ⟨(litState.stream.drop (litState.idx + 2)).take 1, 7⟩] } with
        | .ok (none, s6) => .ok (none, s6)
        | .ok (some _, s6) => .ok (s6.object_table.getLast?, s6)
        | .crash => .crash
        | .fuelOut => .fuelOut) :=
  ⟨(c3_class_length_or_reference 5 refState 0x93
      (by decide) (by decide) (by decide)).1 (by decide),
   (c3_class_length_or_reference 5 litState 1
      (by decide) (by decide) (by decide)).2 (by decide) (by decide)
      7 0x85 (by decide) (by decide)⟩

/-- Extension is reflexive. -/
theorem tablesExtend_refl (s : TypedStreamReader) : tablesExtend s s :=
  ⟨rfl, ⟨[], by simp⟩, ⟨[], by simp⟩⟩

/-- Extension is transitive. -/
theorem tablesExtend_trans {a b c : TypedStreamReader}
    (h1 : tablesExtend a b) (h2 : tablesExtend b c) : tablesExtend a c := by
  obtain ⟨hs1, ⟨t1, ht1⟩, ⟨o1, ho1⟩⟩ := h1
  obtain ⟨hs2, ⟨t2, ht2⟩, ⟨o2, ho2⟩⟩ := h2
  exact ⟨hs2.trans hs1, ⟨t1 ++ t2, by simp [ht2, ht1]⟩,
    ⟨o1 ++ o2, by simp [ho2, ho1]⟩⟩

/-- Moving only the cursor extends the tables trivially. -/
theorem tablesExtend_idx (s : TypedStreamReader) (n : Nat) :
    tablesExtend s { s with idx := n } :=
  ⟨rfl, ⟨[], by simp⟩, ⟨[], by simp⟩⟩

/-- A successful `read_int` leaves both tables and the stream unchanged. -/
theorem read_int_extend {s : TypedStreamReader} {v : Nat}
    {s2 : TypedStreamReader} (h : read_int s = .ok (v, s2)) :
    tablesExtend s s2 := by
  unfold read_int at h
  split at h
  · simp only [Res.ok.injEq, Prod.mk.injEq] at h
    obtain ⟨-, h2⟩ := h
    subst h2
    exact tablesExtend_idx s (s.idx + 1)
  · simp at h

/-- A successful `read_exact_bytes` leaves both tables and the stream
unchanged. -/
theorem read_exact_bytes_extend {n : Nat} {s : TypedStreamReader}
    {v : List Nat} {s2 : TypedStreamReader}
    (h : read_exact_bytes n s = .ok (v, s2)) : tablesExtend s s2 := by
  unfold read_exact_bytes at h
  split at h
  · simp only [Res.ok.injEq, Prod.mk.injEq] at h
    obtain ⟨-, h2⟩ := h
    subst h2
    exact tablesExtend_idx s (s.idx + n)
  · simp at h

/-- A successful `read_exact_as_string` leaves both tables and the
stream unchanged. -/
theorem read_exact_as_string_extend {n : Nat} {s : TypedStreamReader}
    {v : List Nat} {s2 : TypedStreamReader}
    (h : read_exact_as_string n s = .ok (v, s2)) : tablesExtend s s2 := by
  unfold read_exact_as_string at h
  rw [Res.bind_eq_ok] at h
  obtain ⟨p, hp, h⟩ := h
  split at h
  · simp only [Res.ok.injEq, Prod.mk.injEq] at h
    obtain ⟨-, h2⟩ := h
    subst h2
    exact read_exact_bytes_extend hp
  · simp at h

/-- A successful `read_string` leaves both tables and the stream
unchanged. -/
theorem read_string_extend {s : TypedStreamReader} {v : List Nat}
    {s2 : TypedStreamReader} (h : read_string s = .ok (v, s2)) :
    tablesExtend s s2 := by
  unfold read_string at h
  rw [Res.bind_eq_ok] at h
  obtain ⟨p, hp, h⟩ := h
  exact tablesExtend_trans (read_int_extend hp) (read_exact_as_string_extend h)

/-- A successful `read_type` leaves both tables and the stream
unchanged. -/
theorem read_type_extend {s : TypedStreamReader} {v : List Ty}
    {s2 : TypedStreamReader} (h : read_type s = .ok (v, s2)) :
    tablesExtend s s2 := by
  unfold read_type at h
  rw [Res.bind_eq_ok] at h
  obtain ⟨p, hp, h⟩ := h
  rw [Res.bind_eq_ok] at h
  obtain ⟨q, hq, h⟩ := h
  simp only [Res.ok.injEq, Prod.mk.injEq] at h
  obtain ⟨-, h2⟩ := h
  subst h2
  exact tablesExtend_trans (read_int_extend hp) (read_exact_bytes_extend hq)

/-- The `START`-skipping loop leaves both tables and the stream
unchanged. -/
theorem skipStartsF_extend {fuel : Nat} :
    ∀ {s s2 : TypedStreamReader}, skipStartsF fuel s = .ok s2 →
      tablesExtend s s2 := by
  induction fuel with
  | zero => intro s s2 h; simp [skipStartsF] at h
  | succ fuel ih =>
    intro s s2 h
    unfold skipStartsF at h
    split at h
    · simp at h
    · split at h
      · exact tablesExtend_trans (tablesExtend_idx s (s.idx + 1)) (ih h)
      · simp only [Res.ok.injEq] at h
        subst h
        exact tablesExtend_refl s

/-- The repeated-byte-skipping loop leaves both tables and the stream
unchanged. -/
theorem skipRepeatsF_extend {fuel : Nat} :
    ∀ {s s2 : TypedStreamReader}, skipRepeatsF fuel s = .ok s2 →
      tablesExtend s s2 := by
  induction fuel with
  | zero => intro s s2 h; simp [skipRepeatsF] at h
  | succ fuel ih =>
    intro s s2 h
    unfold skipRepeatsF at h
    split at h
    · split at h
      · exact tablesExtend_trans (tablesExtend_idx s (s.idx + 1)) (ih h)
      · simp only [Res.ok.injEq] at h
        subst h
        exact tablesExtend_refl s
    · simp at h

/-- A successful `get_type` only appends to the Type Table. -/
theorem get_type_extend {s : TypedStreamReader} {v : List Ty}
    {s2 : TypedStreamReader} (h : get_type s = .ok (v, s2)) :
    tablesExtend s s2 := by
  unfold get_type at h
  split at h
  · simp at h
  · split at h
    · rw [Res.bind_eq_ok] at h
      obtain ⟨p, hp, h⟩ := h
      have hext : tablesExtend s p.2 :=
        tablesExtend_trans (tablesExtend_idx s (s.idx + 1)) (read_type_extend hp)
      dsimp only at h
      split at h
      · simp only [Res.ok.injEq, Prod.mk.injEq] at h
        obtain ⟨-, h2⟩ := h
        subst h2
        refine tablesExtend_trans hext ⟨rfl, ⟨[p.1], rfl⟩, ⟨[], by simp⟩⟩
      · simp at h
    · split at h
      · simp only [Res.ok.injEq, Prod.mk.injEq] at h
        obtain ⟨-, h2⟩ := h
        subst h2
        exact tablesExtend_refl s
      · rw [Res.bind_eq_ok] at h
        obtain ⟨s1, hs1, h⟩ := h
        have hext : tablesExtend s s1 := by
          unfold skipRepeats at hs1
          exact skipRepeatsF_extend hs1
        split at h
        · simp at h
        · dsimp only at h
          split at h
          · simp only [Res.ok.injEq, Prod.mk.injEq] at h
            obtain ⟨-, h2⟩ := h
            subst h2
            exact tablesExtend_trans hext (tablesExtend_idx s1 (s1.idx + 1))
          · simp at h

/-- The `skipStarts` wrapper only moves the cursor. -/
theorem skipStarts_extend {s s2 : TypedStreamReader}
    (h : skipStarts s = .ok s2) : tablesExtend s s2 := by
  unfold skipStarts at h
  exact skipStartsF_extend h

/-- The four mutually recursive decoding functions only append to the
tables and never touch the stream: whatever entries the tables held when
a call started are still there, in place, when it returns. -/
theorem decode_extend (fuel : Nat) :
    (∀ s r s2, read_class fuel s = .ok (r, s2) → tablesExtend s s2) ∧
    (∀ s r s2, read_object fuel s = .ok (r, s2) → tablesExtend s s2) ∧
    (∀ s r s2, read_embedded_data fuel s = .ok (r, s2) → tablesExtend s s2) ∧
    (∀ ts s r s2, read_types fuel ts s = .ok (r, s2) → tablesExtend s s2) := by
  induction fuel with
  | zero =>
    refine ⟨?_, ?_, ?_, ?_⟩
    · intro s r s2 h; simp [read_class] at h
    · intro s r s2 h; simp [read_object] at h
    · intro s r s2 h; simp [read_embedded_data] at h
    · intro ts s r s2 h; simp [read_types] at h
  | succ fuel ih =>
    obtain ⟨ihc, iho, ihe, iht⟩ := ih
    refine ⟨?_, ?_, ?_, ?_⟩
    · intro s r s2 h
      unfold read_class at h
      split at h
      · simp at h
      · split at h
        · rw [Res.bind_eq_ok] at h
          obtain ⟨s1, hsk, h⟩ := h
          have e1 : tablesExtend s s1 := skipStarts_extend hsk
          rw [Res.bind_eq_ok] at h
          obtain ⟨lp, hri, h⟩ := h
          have e2 : tablesExtend s lp.2 :=
            tablesExtend_trans e1 (read_int_extend hri)
          split at h
          · simp only [Res.ok.injEq, Prod.mk.injEq] at h
            obtain ⟨-, h2⟩ := h
            subst h2
            exact e2
          · rw [Res.bind_eq_ok] at h
            obtain ⟨np, hna, h⟩ := h
            have e3 : tablesExtend s np.2 :=
              tablesExtend_trans e2 (read_exact_as_string_extend hna)
            rw [Res.bind_eq_ok] at h
            obtain ⟨vp, hvi, h⟩ := h
            have e4 : tablesExtend s vp.2 :=
              tablesExtend_trans e3 (read_int_extend hvi)
            split at h
            · simp at h
            · dsimp only at h
              split at h
              all_goals rename_i heq
              · simp only [Res.ok.injEq, Prod.mk.injEq] at h
                obtain ⟨-, h2⟩ := h
                subst h2
                have e5 := ihc _ _ _ heq
                have epush : tablesExtend vp.2
                    { vp.2 with
                      types_table := vp.2.types_table ++
                        [[Ty.new_string np.1]],
                      object_table := vp.2.object_table ++
                        [Archivable.Class ⟨np.1, vp.1⟩] } :=
                  ⟨rfl, ⟨_, rfl⟩, ⟨_, rfl⟩⟩
                exact tablesExtend_trans e4 (tablesExtend_trans epush e5)
              · simp only [Res.ok.injEq, Prod.mk.injEq] at h
                obtain ⟨-, h2⟩ := h
                subst h2
                have e5 := ihc _ _ _ heq
                have epush : tablesExtend vp.2
                    { vp.2 with
                      types_table := vp.2.types_table ++
                        [[Ty.new_string np.1]],
                      object_table := vp.2.object_table ++
                        [Archivable.Class ⟨np.1, vp.1⟩] } :=
                  ⟨rfl, ⟨_, rfl⟩, ⟨_, rfl⟩⟩
                exact tablesExtend_trans e4 (tablesExtend_trans epush e5)
              · simp at h
              · simp at h
        · split at h
          · dsimp only at h
            simp only [Res.ok.injEq, Prod.mk.injEq] at h
            obtain ⟨-, h2⟩ := h
            subst h2
            exact tablesExtend_idx s (s.idx + 1)
          · split at h
            · split at h
              all_goals rename_i heq
              · dsimp only at h
                simp only [Res.ok.injEq, Prod.mk.injEq] at h
                obtain ⟨-, h2⟩ := h
                subst h2
                exact tablesExtend_trans (ihe _ _ _ heq)
                  ⟨rfl, ⟨[], by simp⟩, ⟨_, rfl⟩⟩
              · simp at h
              · simp at h
            · dsimp only at h
              simp only [Res.ok.injEq, Prod.mk.injEq] at h
              obtain ⟨-, h2⟩ := h
              subst h2
              exact tablesExtend_idx s (s.idx + 1)
    · intro s r s2 h
      unfold read_object at h
      split at h
      · simp at h
      · split at h
        · exact ihc _ _ _ h
        · split at h
          · simp only [Res.ok.injEq, Prod.mk.injEq] at h
            obtain ⟨-, h2⟩ := h
            subst h2
            exact tablesExtend_idx s (s.idx + 1)
          · dsimp only at h
            simp only [Res.ok.injEq, Prod.mk.injEq] at h
            obtain ⟨-, h2⟩ := h
            subst h2
            exact tablesExtend_idx s (s.idx + 1)
    · intro s r s2 h
      unfold read_embedded_data at h
      rw [Res.bind_eq_ok] at h
      obtain ⟨p, hgt, h⟩ := h
      exact tablesExtend_trans
        (tablesExtend_trans (tablesExtend_idx s (s.idx + 1))
          (get_type_extend hgt))
        (iht p.1 p.2 r s2 h)
    · intro ts s r s2 h
      cases ts with
      | nil =>
        unfold read_types at h
        simp only [Res.ok.injEq, Prod.mk.injEq] at h
        obtain ⟨-, h2⟩ := h
        subst h2
        exact tablesExtend_refl s
      | cons t rest =>
        unfold read_types at h
        rw [Res.bind_eq_ok] at h
        obtain ⟨vp, hstep, h⟩ := h
        rw [Res.bind_eq_ok] at h
        obtain ⟨rp, hrest, h⟩ := h
        simp only [Res.ok.injEq, Prod.mk.injEq] at h
        obtain ⟨-, h2⟩ := h
        subst h2
        refine tablesExtend_trans ?_ (iht rest vp.2 rp.1 rp.2 hrest)
        cases t with
        | Utf8String =>
          rw [Res.bind_eq_ok] at hstep
          obtain ⟨p, hrs, hstep⟩ := hstep
          simp only [Res.ok.injEq] at hstep
          subst hstep
          exact read_string_extend hrs
        | EmbeddedData => exact ihe _ _ _ hstep
        | Object =>
          dsimp only at hstep
          split at hstep
          · simp at hstep
          · rw [Res.bind_eq_ok] at hstep
            obtain ⟨p, hro, hstep⟩ := hstep
            have hob : tablesExtend s p.2 := iho _ _ _ hro
            split at hstep
            all_goals simp only [Res.ok.injEq] at hstep
            all_goals subst hstep
            all_goals exact hob
        | SignedInt =>
          rw [Res.bind_eq_ok] at hstep
          obtain ⟨p, hri, hstep⟩ := hstep
          simp only [Res.ok.injEq] at hstep
          subst hstep
          exact read_int_extend hri
        | UnsignedInt =>
          rw [Res.bind_eq_ok] at hstep
          obtain ⟨p, hri, hstep⟩ := hstep
          simp only [Res.ok.injEq] at hstep
          subst hstep
          exact read_int_extend hri
        | Unknown b =>
          simp only [Res.ok.injEq] at hstep
          subst hstep
          exact tablesExtend_refl s
        | String str =>
          simp only [Res.ok.injEq] at hstep
          subst hstep
          exact tablesExtend_refl s

/-- The top-level parse loop only appends to the tables. -/
theorem parseLoop_extend (fuel : Nat) :
    ∀ s out r s2, parseLoop fuel s out = .ok (r, s2) → tablesExtend s s2 := by
  induction fuel with
  | zero => intro s out r s2 h; simp [parseLoop] at h
  | succ fuel ih =>
    intro s out r s2 h
    unfold parseLoop at h
    split at h
    · split at h
      · simp at h
      · split at h
        · exact tablesExtend_trans (tablesExtend_idx s (s.idx + 1))
            (ih _ _ _ _ h)
        · rw [Res.bind_eq_ok] at h
          obtain ⟨tp, hgt, h⟩ := h
          rw [Res.bind_eq_ok] at h
          obtain ⟨rp, hrt, h⟩ := h
          exact tablesExtend_trans (get_type_extend hgt)
            (tablesExtend_trans ((decode_extend fuel).2.2.2 _ _ _ _ hrt)
              (ih _ _ _ _ h))
    · simp only [Res.ok.injEq, Prod.mk.injEq] at h
      obtain ⟨-, h2⟩ := h
      subst h2
      exact tablesExtend_refl s

/-- A whole successful `parse` invocation only appends to the tables. -/
theorem parse_extend {fuel : Nat} {s : TypedStreamReader}
    {out : List (List OutputData)} {s2 : TypedStreamReader}
    (h : parse fuel s = .ok (out, s2)) : tablesExtend s s2 := by
  unfold parse at h
  exact tablesExtend_trans (tablesExtend_idx s (s.idx + 16))
    (parseLoop_extend fuel _ _ _ _ h)

/-- Prefix extension keeps every previously stored entry retrievable,
unchanged, at its original index. -/
theorem tablesExtend_stable {s s2 : TypedStreamReader}
    (h : tablesExtend s s2) :
    (∀ i, i < s.types_table.length →
      s2.types_table[i]? = s.types_table[i]?) ∧
    (∀ i, i < s.object_table.length →
      s2.object_table[i]? = s.object_table[i]?) := by
  obtain ⟨-, ⟨t, ht⟩, ⟨o, ho⟩⟩ := h
  constructor
  · intro i hi
    rw [ht]
    simp [List.getElem?_append, hi]
  · intro i hi
    rw [ho]
    simp [List.getElem?_append, hi]

/-- Claim C4: the Type Table and Object Table are append-only for the
whole duration of one parse: any successful class-chain decode and any
successful full parse leave the prior contents of both tables as a
prefix of the new contents, so every entry registered earlier is still
retrievable unchanged at its original insertion index (no entry is ever
mutated, moved, or removed). -/
theorem c4_tables_append_only (fuel : Nat) (s : TypedStreamReader) :
    (∀ r s2, read_class fuel s = .ok (r, s2) →
      (∃ t, s2.types_table = s.types_table ++ t) ∧
      (∃ o, s2.object_table = s.object_table ++ o) ∧
      (∀ i, i < s.types_table.length →
        s2.types_table[i]? = s.types_table[i]?) ∧
      (∀ i, i < s.object_table.length →
        s2.object_table[i]? = s.object_table[i]?)) ∧
    (∀ out s2, parse fuel s = .ok (out, s2) →
      (∃ t, s2.types_table = s.types_table ++ t) ∧
      (∃ o, s2.object_table = s.object_table ++ o) ∧
      (∀ i, i < s.types_table.length →
        s2.types_table[i]? = s.types_table[i]?) ∧
      (∀ i, i < s.object_table.length →
        s2.object_table[i]? = s.object_table[i]?)) := by
  constructor
  · intro r s2 h
    have he := (decode_extend fuel).1 s r s2 h
    exact ⟨he.2.1, he.2.2, (tablesExtend_stable he).1,
      (tablesExtend_stable he).2⟩
  · intro out s2 h
    have he := parse_extend h
    exact ⟨he.2.1, he.2.2, (tablesExtend_stable he).1,
      (tablesExtend_stable he).2⟩

/-- A closed instance of C4 at concrete reader states, obtained from
the theorem itself. -/
theorem c4_tables_append_only_witness :
    (∃ t, c4ReadEnd.types_table = c4Start.types_table ++ t) ∧
    (∃ o, c4ReadEnd.object_table = c4Start.object_table ++ o) ∧
    c4ReadEnd.types_table[0]? = c4Start.types_table[0]? ∧
    c4ReadEnd.object_table[0]? = c4Start.object_table[0]? ∧
    (∃ t, c4ParseEnd.types_table = c4Start.types_table ++ t) ∧
    (∃ o, c4ParseEnd.object_table = c4Start.object_table ++ o) ∧
    c4ParseEnd.types_table[0]? = c4Start.types_table[0]? ∧
    c4ParseEnd.object_table[0]? = c4Start.object_table[0]? := by
  have h1 := (c4_tables_append_only 32 c4Start).1 none c4ReadEnd (by decide)
  have h2 := (c4_tables_append_only 32 c4Start).2
    [[OutputData.String [72, 101, 108, 108, 111]]] c4ParseEnd (by decide)
  exact ⟨h1.1, h1.2.1, h1.2.2.1 0 (by decide), h1.2.2.2 0 (by decide),
    h2.1, h2.2.1, h2.2.2.1 0 (by decide), h2.2.2.2 0 (by decide)⟩

end IME
